import Mathlib

/-!
# Tool manager (`tool_manager.go`): resolution and installation of CLI tools

A shallow embedding of `src/tool_manager.go`.

* Go `string` values are modelled by Lean `String` (sequences of Unicode
  code points); byte slicing `e[5:]` is modelled by dropping five code points,
  which coincides with the byte slice whenever the first five code points are
  ASCII (the only situation in which the source performs it).
* `strings.ToUpper` / `strings.ToLower` are modelled on the ASCII range, code
  points outside it are left unchanged.
* Everything the program obtains from the operating system (home directory,
  `os.Stat`, `exec.LookPath`, `os.MkdirAll`, `os.Environ`, process results,
  `filepath.Join`, `runtime.GOOS`, `os.PathListSeparator`) is a field of `World`.
* Every interaction with the outside is recorded, in order, in a list of
  `Event`s returned next to the result.
* A Go `error` is modelled by its message; `none` is the `nil` error.
-/

namespace ToolManager

/-! ## The part of package `strings` used by the source -/

/-- Go `unicode.IsSpace`. -/
def isSpace (c : Char) : Bool :=
  c = '\t' || c = '\n' || c = '\x0b' || c = '\x0c' || c = '\r' || c = ' ' ||
  c.toNat = 0x85 || c.toNat = 0xA0 || c.toNat = 0x1680 ||
  (0x2000 ≤ c.toNat && c.toNat ≤ 0x200a) ||
  c.toNat = 0x2028 || c.toNat = 0x2029 || c.toNat = 0x202f ||
  c.toNat = 0x205f || c.toNat = 0x3000

/-- Go `strings.TrimSpace`: leading and trailing white space removed. -/
def TrimSpace (s : String) : String :=
  ⟨((s.data.dropWhile isSpace).reverse.dropWhile isSpace).reverse⟩

/-- Worker of `Split` for a non-empty separator: scans left to right, `cur` is
the current piece (reversed), `skip` the number of separator characters still
to be jumped over after a match. -/
def splitGo (sep : List Char) : List Char → List Char → Nat → List (List Char)
  | [], cur, _ => [cur.reverse]
  | _ :: cs, cur, skip + 1 => splitGo sep cs cur skip
  | c :: cs, cur, 0 =>
    if sep.isPrefixOf (c :: cs) then
      cur.reverse :: splitGo sep cs [] (sep.length - 1)
    else
      splitGo sep cs (c :: cur) 0

/-- Go `strings.Split`: the pieces of `s` between the non-overlapping
occurrences of `sep`, found left to right; an empty `sep` explodes `s`. -/
def Split (s sep : String) : List String :=
  if sep.data = [] then s.data.map String.singleton
  else (splitGo sep.data s.data [] 0).map String.mk

/-- Go `strings.Contains`. -/
def Contains (s substr : String) : Bool :=
  s.data.tails.any (fun t => substr.data.isPrefixOf t)

/-- Go `strings.HasPrefix`. -/
def HasPrefix (s pre : String) : Bool :=
  pre.data.isPrefixOf s.data

/-- Go `strings.HasSuffix`. -/
def HasSuffix (s suf : String) : Bool :=
  suf.data.reverse.isPrefixOf s.data.reverse

/-- Go `strings.ToUpper` (ASCII range). -/
def ToUpper (s : String) : String :=
  ⟨s.data.map Char.toUpper⟩

/-- Go `strings.ToLower` (ASCII range). -/
def ToLower (s : String) : String :=
  ⟨s.data.map Char.toLower⟩

/-- Go `strings.Join`. -/
def stringsJoin : List String → String → String
  | [], _ => ""
  | [a], _ => a
  | a :: b :: rest, sep => a ++ sep ++ stringsJoin (b :: rest) sep

/-- Go slice expression `s[n:]`. -/
def sliceFrom (s : String) (n : Nat) : String :=
  ⟨s.data.drop n⟩

/-! ## Data model -/

/-- The record `ToolStatus` of the source. -/
structure ToolStatus where
  Name : String
  Installed : Bool
  Version : String
  Path : String
  deriving DecidableEq, Repr

/-- The fields of `exec.Cmd` the source sets or reads. `Args` holds the whole
argument vector, `Args[0]` being the command name; `Env = none` is the `nil`
environment (the child inherits the parent's). -/
structure Cmd where
  Path : String
  Args : List String
  Env : Option (List String)
  deriving DecidableEq, Repr

/-- What the program reads from its platform and operating system. -/
structure World where
  /-- Value of `runtime.GOOS`. -/
  GOOS : String
  /-- Value of `os.PathListSeparator`. -/
  PathListSeparator : Char
  /-- Result of `os.UserHomeDir()`, whose error the source discards. -/
  home : String
  /-- Function `filepath.Join`. -/
  filepathJoin : List String → String
  /-- Whether `filepath.Base(name) == name`, the test `exec.Command` makes
  before resolving a command name through the search path. -/
  isBareName : String → Bool
  /-- Whether `os.Stat(path)` returns a `nil` error. -/
  Stat : String → Bool
  /-- Function `exec.LookPath`: `some p` on success, `none` on error. -/
  LookPath : String → Option String
  /-- Function `os.MkdirAll(path, 0755)`: `none` on success, else the error. -/
  MkdirAll : String → Option String
  /-- Result of `os.Environ()`. -/
  Environ : List String
  /-- Method `(*exec.Cmd).Output`: captured standard output and error. -/
  Output : Cmd → String × Option String
  /-- Method `(*exec.Cmd).CombinedOutput`: captured output and error. -/
  CombinedOutput : Cmd → String × Option String

/-- The interactions of the program with the outside, as recorded in traces. -/
inductive Event where
  | stat (path : String)
  | lookPath (file : String)
  | mkdirAll (path : String)
  | log (msg : String)
  | run (cmd : Cmd)
  deriving DecidableEq, Repr

/-- Whether an event is the creation of a directory. -/
def Event.isMkdir : Event → Bool
  | Event.mkdirAll _ => true
  | _ => false

/-- Whether an event is the spawn of a process. -/
def Event.isRun : Event → Bool
  | Event.run _ => true
  | _ => false

/-- Go `exec.Command`: a bare command name is resolved through the search
path, any other name is used as the path directly. -/
def Command (w : World) (name : String) (arg : List String) : Cmd × List Event :=
  if w.isBareName name then
    match w.LookPath name with
    | some lp => ({ Path := lp, Args := name :: arg, Env := none }, [Event.lookPath name])
    | none => ({ Path := name, Args := name :: arg, Env := none }, [Event.lookPath name])
  else
    ({ Path := name, Args := name :: arg, Env := none }, [])

/-! ## Resolver -/

/-- Lines 80-93 of `getToolVersion`: the version string taken from the raw
standard output of `<tool> --version`. -/
def parseVersion (name out : String) : String :=
  let output := TrimSpace out
  if Contains name "claude" then
    let parts := Split output " "
    match parts with
    | p0 :: _ =>
      match Split p0 "/" with
      | [_, v] => v
      | _ => output
    | [] => output
  else
    output

/-- Method `getToolVersion`: runs `path --version` and parses its output. -/
def getToolVersion (w : World) (name path : String) : Except String String × List Event :=
  let c := Command w path ["--version"]
  match w.Output c.1 with
  | (_, some err) => (Except.error err, c.2 ++ [Event.run c.1])
  | (out, none) => (Except.ok (parseVersion name out), c.2 ++ [Event.run c.1])

/-- Lines 59-67 of `GetToolStatus`: the status of a tool whose binary was
found at `path`, after the events `ev`. -/
def foundStatus (w : World) (name path : String) (ev : List Event) : ToolStatus × List Event :=
  let r := getToolVersion w name path
  match r.1 with
  | Except.ok version =>
    ({ Name := name, Installed := true, Version := version, Path := path }, ev ++ r.2)
  | Except.error _ =>
    ({ Name := name, Installed := true, Version := "", Path := path }, ev ++ r.2)

/-- Method `GetToolStatus`. -/
def GetToolStatus (w : World) (name : String) : ToolStatus × List Event :=
  let status : ToolStatus := { Name := name, Installed := false, Version := "", Path := "" }
  let binaryName := name
  match w.LookPath binaryName with
  | some path => foundStatus w binaryName path [Event.lookPath binaryName]
  | none =>
    let home := w.home
    let l : String × List Event :=
      if w.GOOS = "windows" then
        let localBin := w.filepathJoin [home, ".cceasy", "node", binaryName ++ ".cmd"]
        if w.Stat localBin then
          (localBin, [Event.stat localBin])
        else
          (w.filepathJoin [home, ".cceasy", "node", "bin", binaryName ++ ".cmd"],
            [Event.stat localBin])
      else
        (w.filepathJoin [home, ".cceasy", "node", "bin", binaryName], [])
    let localBin := l.1
    let ev := Event.lookPath binaryName :: l.2 ++ [Event.stat localBin]
    if w.Stat localBin then
      foundStatus w binaryName localBin ev
    else
      (status, ev)

/-- Function `CheckToolsStatus`: the statuses of the three tools, in order. -/
def CheckToolsStatus (w : World) : List ToolStatus :=
  ["claude", "gemini", "codex"].map (fun name => (GetToolStatus w name).1)

/-! ## Installer -/

/-- Method `getNpmPath`: the local npm if it exists, else the one on the
search path, else the empty string. -/
def getNpmPath (w : World) : String × List Event :=
  let home := w.home
  let localNpm :=
    if w.GOOS = "windows" then w.filepathJoin [home, ".cceasy", "node", "npm.cmd"]
    else w.filepathJoin [home, ".cceasy", "node", "bin", "npm"]
  if w.Stat localNpm then
    (localNpm, [Event.stat localNpm])
  else
    match w.LookPath "npm" with
    | some path => (path, [Event.stat localNpm, Event.lookPath "npm"])
    | none => ("", [Event.stat localNpm, Event.lookPath "npm"])

/-- Lines 110-120 of `InstallTool`: the `switch` from tool name to package
name; `none` is the `default` branch. -/
def packageName (name : String) : Option String :=
  if name = "claude" then some "@anthropic-ai/claude-code"
  else if name = "gemini" then some "@google/gemini-cli"
  else if name = "codex" then some "@openai/codex"
  else none

/-- Lines 126-136 of `InstallTool`: the install command. -/
def installCommand (w : World) (npmPath : String) (args : List String) : Cmd × List Event :=
  if w.GOOS = "windows" then
    if !Contains (ToLower npmPath) ".cmd" && !Contains (ToLower npmPath) ".exe" then
      Command w "cmd" (["/c", npmPath] ++ args)
    else
      Command w npmPath args
  else
    Command w npmPath args

/-- The loop of lines 146-152 of `InstallTool`: the first entry whose upper-cased
text starts with `PATH=` is replaced; the second component is `pathFound`. -/
def setPath (localBinDir : String) (sep : Char) : List String → List String × Bool
  | [] => ([], false)
  | e :: rest =>
    if HasPrefix (ToUpper e) "PATH=" then
      (("PATH=" ++ localBinDir ++ String.singleton sep ++ sliceFrom e 5) :: rest, true)
    else
      let r := setPath localBinDir sep rest
      (e :: r.1, r.2)

/-- Lines 144-155 of `InstallTool`: the environment of the child process. -/
def childEnv (environ : List String) (localBinDir : String) (sep : Char) : List String :=
  let r := setPath localBinDir sep environ
  if !r.2 then r.1 ++ ["PATH=" ++ localBinDir] else r.1

/-- Lines 139-142 of `InstallTool`: the directory put in front of the search path. -/
def localBinDir (w : World) (localNodeDir : String) : String :=
  if w.GOOS = "windows" then localNodeDir else w.filepathJoin [localNodeDir, "bin"]

/-- Lines 124-156 of `InstallTool`: the command that is run, environment
included, for package manager `npmPath` and package `pkg`. -/
def installCmd (w : World) (npmPath pkg : String) : Cmd × List Event :=
  let localNodeDir := w.filepathJoin [w.home, ".cceasy", "node"]
  let args := ["install", "-g", pkg, "--prefix", localNodeDir]
  let c := installCommand w npmPath args
  let env := childEnv w.Environ (localBinDir w localNodeDir) w.PathListSeparator
  ({ c.1 with Env := some env }, c.2)

/-- Method `InstallTool`: `none` is the `nil` error. -/
def InstallTool (w : World) (name : String) : Option String × List Event :=
  let n := getNpmPath w
  let npmPath := n.1
  if npmPath = "" then
    (some "npm not found. Please ensure Node.js is installed.", n.2)
  else
    let home := w.home
    let localNodeDir := w.filepathJoin [home, ".cceasy", "node"]
    let ev := n.2 ++ [Event.mkdirAll localNodeDir]
    match w.MkdirAll localNodeDir with
    | some err => (some ("failed to create local node directory: " ++ err), ev)
    | none =>
      match packageName name with
      | none => (some ("unknown tool: " ++ name), ev)
      | some pkg =>
        let c := installCmd w npmPath pkg
        let cmd := c.1
        let msg := "Running installation: " ++ cmd.Path ++ " " ++ stringsJoin (cmd.Args.drop 1) " "
        let ev := ev ++ c.2 ++ [Event.log msg, Event.run cmd]
        match w.CombinedOutput cmd with
        | (out, some err) =>
          (some ("failed to install " ++ name ++ ": " ++ err ++ "\nOutput: " ++ out), ev)
        | (_, none) => (none, ev)

/-! ## Reference definitions, in the words of the specification -/

/-- The ordered search of the specification: the search-path lookup of the
tool name first; failing that the local candidate of the platform. -/
def resolveRef (w : World) (name : String) : Option String :=
  match w.LookPath name with
  | some p => some p
  | none =>
    if w.GOOS = "windows" then
      if w.Stat (w.filepathJoin [w.home, ".cceasy", "node", name ++ ".cmd"]) then
        some (w.filepathJoin [w.home, ".cceasy", "node", name ++ ".cmd"])
      else if w.Stat (w.filepathJoin [w.home, ".cceasy", "node", "bin", name ++ ".cmd"]) then
        some (w.filepathJoin [w.home, ".cceasy", "node", "bin", name ++ ".cmd"])
      else none
    else
      if w.Stat (w.filepathJoin [w.home, ".cceasy", "node", "bin", name]) then
        some (w.filepathJoin [w.home, ".cceasy", "node", "bin", name])
      else none

/-- Puts a character in front of the first piece. -/
def consHead (x : Char) : List (List Char) → List (List Char)
  | [] => [[x]]
  | p :: ps => (x :: p) :: ps

/-- The parts into which a text splits on the character `c`. -/
def pieces (c : Char) : List Char → List (List Char)
  | [] => [[]]
  | x :: xs => if x = c then [] :: pieces c xs else consHead x (pieces c xs)

/-- The version extraction in the words of the specification: `t` is the
trimmed output; for a name containing "claude" whose first space-separated
token splits on `/` into exactly two parts the version is the second part;
in every other case it is `t`. -/
def versionRef (name raw : String) : String :=
  let t := TrimSpace raw
  let token := t.data.takeWhile (fun c => c != ' ')
  if Contains name "claude" then
    match pieces '/' token with
    | [_, v] => String.mk v
    | _ => t
  else
    t

/-- The name and the value of an environment entry `KEY=value`: the text
before and after its first `=`; `none` for an entry without `=`. -/
def envSplit (e : String) : Option (String × String) :=
  match e.data.dropWhile (fun c => c != '=') with
  | [] => none
  | _ :: v => some (String.mk (e.data.takeWhile (fun c => c != '=')), String.mk v)

/-- The value of an entry whose variable name is `PATH` under case-insensitive
comparison; `none` for any other entry. -/
def pathValue (e : String) : Option String :=
  match envSplit e with
  | some (k, v) => if ToUpper k = "PATH" then some v else none
  | none => none

/-! ## Example platforms -/

/-- A Unix-like machine with nothing installed: every lookup fails, every
process fails to start. -/
def bareUnix : World where
  GOOS := "linux"
  PathListSeparator := ':'
  home := "/home/u"
  filepathJoin := fun l => stringsJoin l "/"
  isBareName := fun s => !Contains s "/"
  Stat := fun _ => false
  LookPath := fun _ => none
  MkdirAll := fun _ => none
  Environ := ["HOME=/home/u", "PATH=/usr/bin"]
  Output := fun _ => ("", some "exec: not found")
  CombinedOutput := fun _ => ("", some "exec: not found")

/-- A machine on which `claude` is on the search path but cannot be run. -/
def brokenClaude : World :=
  { bareUnix with
    LookPath := fun f => if f = "claude" then some "/usr/bin/claude" else none }

/-- A Unix-like machine whose only npm is `/usr/bin/npm`, and on which the
installation fails for lack of permission. -/
def npmOnPath : World :=
  { bareUnix with
    LookPath := fun f => if f = "npm" then some "/usr/bin/npm" else none
    CombinedOutput := fun _ => ("npm ERR! permission denied", some "exit status 1") }

/-- A Windows machine whose npm is the batch file `C:\tools.cmd\npm.bat`. -/
def winBat : World where
  GOOS := "windows"
  PathListSeparator := ';'
  home := "C:\\Users\\u"
  filepathJoin := fun l => stringsJoin l "\\"
  isBareName := fun s => !Contains s "\\"
  Stat := fun _ => false
  LookPath := fun f => if f = "npm" then some "C:\\tools.cmd\\npm.bat" else none
  MkdirAll := fun _ => none
  Environ := ["Path=C:\\Windows"]
  Output := fun _ => ("", some "exec: not found")
  CombinedOutput := fun _ => ("", none)

/-! ## Lemmas on the resolver -/

theorem foundStatus_fst (w : World) (name path : String) (ev : List Event) :
    (foundStatus w name path ev).1 =
      { Name := name, Installed := true,
        Version := match (w.Output (Command w path ["--version"]).1).2 with
          | some _ => ""
          | none => parseVersion name (w.Output (Command w path ["--version"]).1).1,
        Path := path } := by
  unfold foundStatus getToolVersion
  rcases h : w.Output (Command w path ["--version"]).1 with ⟨out, _ | err⟩ <;> simp [h]

theorem GetToolStatus_of_resolveRef_none (w : World) (name : String)
    (h : resolveRef w name = none) :
    (GetToolStatus w name).1 = { Name := name, Installed := false, Version := "", Path := "" }
      ∧ ∀ e ∈ (GetToolStatus w name).2, e.isRun = false := by
  unfold resolveRef at h
  unfold GetToolStatus
  cases hl : w.LookPath name with
  | some p => simp [hl] at h
  | none =>
    simp only [hl] at h ⊢
    by_cases hw : w.GOOS = "windows"
    · simp only [hw, if_true] at h ⊢
      by_cases h1 : w.Stat (w.filepathJoin [w.home, ".cceasy", "node", name ++ ".cmd"]) = true
      · simp [h1] at h
      · by_cases h2 : w.Stat (w.filepathJoin [w.home, ".cceasy", "node", "bin", name ++ ".cmd"]) = true
        · simp [h1, h2] at h
        · simp [h1, h2, Event.isRun]
    · simp only [hw, if_false] at h ⊢
      by_cases h1 : w.Stat (w.filepathJoin [w.home, ".cceasy", "node", "bin", name]) = true
      · simp [h1] at h
      · simp [h1, Event.isRun]

theorem GetToolStatus_of_resolveRef_some (w : World) (name p : String)
    (h : resolveRef w name = some p) :
    (GetToolStatus w name).1 =
      { Name := name, Installed := true,
        Version := match (w.Output (Command w p ["--version"]).1).2 with
          | some _ => ""
          | none => parseVersion name (w.Output (Command w p ["--version"]).1).1,
        Path := p } := by
  unfold resolveRef at h
  unfold GetToolStatus
  cases hl : w.LookPath name with
  | some q =>
    simp only [hl, Option.some.injEq] at h ⊢
    subst h
    exact foundStatus_fst _ _ _ _
  | none =>
    simp only [hl] at h ⊢
    by_cases hw : w.GOOS = "windows"
    · simp only [hw, if_true] at h ⊢
      by_cases h1 : w.Stat (w.filepathJoin [w.home, ".cceasy", "node", name ++ ".cmd"]) = true
      · simp only [h1, if_true, Option.some.injEq] at h ⊢
        subst h
        exact foundStatus_fst _ _ _ _
      · by_cases h2 : w.Stat (w.filepathJoin [w.home, ".cceasy", "node", "bin", name ++ ".cmd"]) = true
        · rw [Bool.not_eq_true] at h1
          simp only [h1, h2, if_true, Bool.false_eq_true, if_false, Option.some.injEq] at h ⊢
          subst h
          exact foundStatus_fst _ _ _ _
        · simp [h1, h2] at h
    · simp only [hw, if_false] at h ⊢
      by_cases h1 : w.Stat (w.filepathJoin [w.home, ".cceasy", "node", "bin", name]) = true
      · simp only [h1, if_true, Option.some.injEq] at h ⊢
        subst h
        exact foundStatus_fst _ _ _ _
      · simp [h1] at h

theorem stringsJoin_slash_ne_empty (l : List String) (h : ∃ x ∈ l, x ≠ "") :
    stringsJoin l "/" ≠ "" := by
  obtain ⟨x, hx, hne⟩ := h
  match l, hx with
  | [a], hx =>
    simp only [List.mem_singleton] at hx
    subst hx
    simpa [stringsJoin] using hne
  | a :: b :: rest, _ =>
    intro hcontra
    have := congrArg String.length hcontra
    simp only [stringsJoin, String.length_append] at this
    have h1 : "/".length = 1 := by decide
    have h0 : "".length = 0 := by decide
    omega

/-! ## Claims on the resolver -/

/-- C5: when the search-path lookup of the name fails and no file exists at
any local candidate path of the platform, `GetToolStatus` returns exactly the
record with the given name, `Installed = false`, empty version and empty
path, and its trace contains no process spawn. -/
theorem GetToolStatus_not_installed (w : World) (name : String)
    (hLook : w.LookPath name = none)
    (hUnix : w.GOOS ≠ "windows" →
      w.Stat (w.filepathJoin [w.home, ".cceasy", "node", "bin", name]) = false)
    (hWin : w.GOOS = "windows" →
      w.Stat (w.filepathJoin [w.home, ".cceasy", "node", name ++ ".cmd"]) = false ∧
      w.Stat (w.filepathJoin [w.home, ".cceasy", "node", "bin", name ++ ".cmd"]) = false) :
    (GetToolStatus w name).1 = { Name := name, Installed := false, Version := "", Path := "" }
      ∧ ∀ e ∈ (GetToolStatus w name).2, e.isRun = false := by
  apply GetToolStatus_of_resolveRef_none
  unfold resolveRef
  by_cases hw : w.GOOS = "windows"
  · simp [hLook, hw, (hWin hw).1, (hWin hw).2]
  · simp [hLook, hw, hUnix hw]

theorem GetToolStatus_not_installed_witness :
    (GetToolStatus bareUnix "claude").1 =
      { Name := "claude", Installed := false, Version := "", Path := "" }
      ∧ ∀ e ∈ (GetToolStatus bareUnix "claude").2, e.isRun = false :=
  GetToolStatus_not_installed bareUnix "claude" rfl (fun _ => rfl)
    (fun h => absurd h (by decide))

/-- C6: when the binary of a tool is resolved to a path `p` (by the
search-path lookup or at a local candidate) and running `p --version` fails
with some error, `GetToolStatus` still returns the record with
`Installed = true`, `Path = p` and empty version; the result carries no error. -/
theorem GetToolStatus_probe_failure (w : World) (name p err : String)
    (hres : resolveRef w name = some p)
    (hfail : (w.Output (Command w p ["--version"]).1).2 = some err) :
    (GetToolStatus w name).1 = { Name := name, Installed := true, Version := "", Path := p } := by
  rw [GetToolStatus_of_resolveRef_some w name p hres, hfail]

theorem GetToolStatus_probe_failure_witness :
    (GetToolStatus brokenClaude "claude").1 =
      { Name := "claude", Installed := true, Version := "", Path := "/usr/bin/claude" } :=
  GetToolStatus_probe_failure brokenClaude "claude" "/usr/bin/claude" "exec: not found"
    (by decide) (by decide)

/-- C7: the path reported by `GetToolStatus` is the first success of the
ordered search `resolveRef` (search-path lookup of the name; else the local
candidate(s) of the platform): the tool is installed exactly when the search
succeeds, the path is its result, a successful search-path lookup wins
whatever the local installation root holds, and, on a platform whose
`LookPath` returns non-empty paths and whose `filepath.Join` returns a
non-empty path for a list with a non-empty element, `Installed = true` implies
a non-empty path. -/
theorem GetToolStatus_path_first_success (w : World) (name : String)
    (hLook : ∀ f p, w.LookPath f = some p → p ≠ "")
    (hJoin : ∀ l, (∃ x ∈ l, x ≠ "") → w.filepathJoin l ≠ "") :
    (GetToolStatus w name).1.Installed = (resolveRef w name).isSome
      ∧ (GetToolStatus w name).1.Path = (resolveRef w name).getD ""
      ∧ (∀ p, w.LookPath name = some p →
          (GetToolStatus w name).1.Installed = true ∧ (GetToolStatus w name).1.Path = p)
      ∧ ((GetToolStatus w name).1.Installed = true → (GetToolStatus w name).1.Path ≠ "") := by
  have hcand : ∀ l, ".cceasy" ∈ l → w.filepathJoin l ≠ "" :=
    fun l hl => hJoin l ⟨".cceasy", hl, by decide⟩
  have hlook : ∀ p, w.LookPath name = some p → resolveRef w name = some p := by
    intro p hp
    simp [resolveRef, hp]
  cases hr : resolveRef w name with
  | none =>
    have h := (GetToolStatus_of_resolveRef_none w name hr).1
    refine ⟨by simp [h], by simp [h], ?_, by simp [h]⟩
    intro p hp
    rw [hlook p hp] at hr
    cases hr
  | some q =>
    have h := GetToolStatus_of_resolveRef_some w name q hr
    refine ⟨by simp [h], by simp [h], ?_, ?_⟩
    · intro p hp
      rw [hlook p hp] at hr
      cases hr
      simp [h]
    · intro _
      rw [h]
      show q ≠ ""
      unfold resolveRef at hr
      cases hl : w.LookPath name with
      | some p =>
        simp only [hl, Option.some.injEq] at hr
        subst hr
        exact hLook _ _ hl
      | none =>
        simp only [hl] at hr
        split_ifs at hr <;> cases hr <;> apply hcand <;> simp

theorem GetToolStatus_path_first_success_witness :
    (GetToolStatus brokenClaude "claude").1.Installed = (resolveRef brokenClaude "claude").isSome
      ∧ (GetToolStatus brokenClaude "claude").1.Path = (resolveRef brokenClaude "claude").getD ""
      ∧ (∀ p, brokenClaude.LookPath "claude" = some p →
          (GetToolStatus brokenClaude "claude").1.Installed = true ∧
          (GetToolStatus brokenClaude "claude").1.Path = p)
      ∧ ((GetToolStatus brokenClaude "claude").1.Installed = true →
          (GetToolStatus brokenClaude "claude").1.Path ≠ "") :=
  GetToolStatus_path_first_success brokenClaude "claude"
    (fun f p h => by
      simp only [brokenClaude] at h
      split_ifs at h
      cases h
      decide)
    (fun l h => stringsJoin_slash_ne_empty l h)

/-! ## Lemmas on the installer -/

theorem Command_args (w : World) (name : String) (arg : List String) :
    (Command w name arg).1.Args = name :: arg := by
  unfold Command
  split_ifs
  · cases w.LookPath name <;> rfl
  · rfl

theorem Command_events (w : World) (name : String) (arg : List String) :
    ∀ e ∈ (Command w name arg).2, e.isRun = false ∧ e.isMkdir = false := by
  unfold Command
  split_ifs
  · cases w.LookPath name <;> simp [Event.isRun, Event.isMkdir]
  · simp

theorem getNpmPath_events (w : World) :
    ∀ e ∈ (getNpmPath w).2, e.isRun = false ∧ e.isMkdir = false := by
  unfold getNpmPath
  dsimp only
  generalize (if w.GOOS = "windows" then w.filepathJoin [w.home, ".cceasy", "node", "npm.cmd"]
    else w.filepathJoin [w.home, ".cceasy", "node", "bin", "npm"]) = localNpm
  by_cases hs : w.Stat localNpm = true
  · simp [hs, Event.isRun, Event.isMkdir]
  · cases hl : w.LookPath "npm" <;> simp [hs, Event.isRun, Event.isMkdir]

theorem installCommand_args (w : World) (npmPath : String) (args : List String) :
    (installCommand w npmPath args).1.Args = npmPath :: args ∨
    (installCommand w npmPath args).1.Args = "cmd" :: "/c" :: npmPath :: args := by
  unfold installCommand
  split_ifs
  · right
    rw [Command_args]
    rfl
  · left
    exact Command_args _ _ _
  · left
    exact Command_args _ _ _

theorem installCommand_events (w : World) (npmPath : String) (args : List String) :
    ∀ e ∈ (installCommand w npmPath args).2, e.isRun = false ∧ e.isMkdir = false := by
  unfold installCommand
  split_ifs <;> exact Command_events _ _ _

theorem filter_eq_nil_of_forall {l : List Event} {f : Event → Bool}
    (h : ∀ e ∈ l, f e = false) : l.filter f = [] := by
  rw [List.filter_eq_nil_iff]
  intro e he
  simp [h e he]

/-- The result and trace of `InstallTool` once the package manager is found,
the local root is created and the tool is one of the table. -/
theorem InstallTool_of_pkg (w : World) (name pkg : String)
    (hnpm : (getNpmPath w).1 ≠ "")
    (hmk : w.MkdirAll (w.filepathJoin [w.home, ".cceasy", "node"]) = none)
    (hpkg : packageName name = some pkg) :
    InstallTool w name =
      ((match (w.CombinedOutput (installCmd w (getNpmPath w).1 pkg).1).2 with
        | some err => some ("failed to install " ++ name ++ ": " ++ err ++ "\nOutput: " ++
            (w.CombinedOutput (installCmd w (getNpmPath w).1 pkg).1).1)
        | none => none),
       (getNpmPath w).2 ++ [Event.mkdirAll (w.filepathJoin [w.home, ".cceasy", "node"])] ++
         (installCmd w (getNpmPath w).1 pkg).2 ++
         [Event.log ("Running installation: " ++ (installCmd w (getNpmPath w).1 pkg).1.Path ++ " " ++
            stringsJoin ((installCmd w (getNpmPath w).1 pkg).1.Args.drop 1) " "),
          Event.run (installCmd w (getNpmPath w).1 pkg).1]) := by
  unfold InstallTool
  simp only [hnpm, if_false, hmk, hpkg]
  rcases h : w.CombinedOutput (installCmd w (getNpmPath w).1 pkg).1 with ⟨out, _ | err⟩ <;> rfl

theorem packageName_eq_none (name : String) (h : name ∉ ["claude", "gemini", "codex"]) :
    packageName name = none := by
  simp only [List.mem_cons, List.mem_singleton, List.not_mem_nil, or_false, not_or] at h
  simp [packageName, h.1, h.2.1, h.2.2]

theorem Contains_append (a s b : String) : Contains (a ++ s ++ b) s = true := by
  unfold Contains
  rw [List.any_eq_true]
  refine ⟨s.data ++ b.data, ?_, ?_⟩
  · rw [List.mem_tails]
    exact ⟨a.data, by simp [String.data_append]⟩
  · rw [List.isPrefixOf_iff_prefix]
    exact List.prefix_append _ _

theorem Contains_of_HasSuffix (s suf : String) (h : HasSuffix s suf = true) :
    Contains s suf = true := by
  unfold HasSuffix at h
  rw [List.isPrefixOf_iff_prefix, List.reverse_prefix] at h
  unfold Contains
  rw [List.any_eq_true]
  exact ⟨suf.data, (List.mem_tails _ _).2 h, by simp⟩

/-- The part of C8 that holds: off Windows, and on Windows for a path ending
in `.cmd` or `.exe` (in any letter case), the package manager is invoked
directly. -/
theorem installCommand_direct (w : World) (npmPath : String) (args : List String)
    (h : w.GOOS ≠ "windows" ∨ HasSuffix (ToLower npmPath) ".cmd" = true ∨
      HasSuffix (ToLower npmPath) ".exe" = true) :
    (installCommand w npmPath args).1.Args = npmPath :: args := by
  unfold installCommand
  by_cases hw : w.GOOS = "windows"
  · rcases h with h | h | h
    · exact absurd hw h
    · simp [hw, Contains_of_HasSuffix _ _ h, Command_args]
    · simp [hw, Contains_of_HasSuffix _ _ h, Command_args]
  · simp [hw, Command_args]

/-- On Windows a path that contains neither `.cmd` nor `.exe` (in any letter
case) is run through `cmd /c`. -/
theorem installCommand_wrapped (w : World) (npmPath : String) (args : List String)
    (hw : w.GOOS = "windows") (h1 : Contains (ToLower npmPath) ".cmd" = false)
    (h2 : Contains (ToLower npmPath) ".exe" = false) :
    (installCommand w npmPath args).1.Args = "cmd" :: "/c" :: npmPath :: args := by
  unfold installCommand
  simp [hw, h1, h2, Command_args]

/-- The environment of the command run by `InstallTool` is `childEnv` of the
process environment. -/
theorem installCmd_env (w : World) (npmPath pkg : String) :
    (installCmd w npmPath pkg).1.Env =
      some (childEnv w.Environ (localBinDir w (w.filepathJoin [w.home, ".cceasy", "node"]))
        w.PathListSeparator) :=
  rfl

/-! ## Claims on the installer -/

/-- C1 (as stated, refuted): `foo` is not a known tool; on a machine with npm
on the search path and no local root, `InstallTool` looks for npm and creates
the local root directory before it returns the unknown-tool error; and on a
machine without npm the error it returns is not the unknown-tool error. -/
theorem InstallTool_unknown_not_fail_fast :
    "foo" ∉ ["claude", "gemini", "codex"]
      ∧ npmOnPath.Stat "/home/u/.cceasy/node" = false
      ∧ npmOnPath.MkdirAll "/home/u/.cceasy/node" = none
      ∧ InstallTool npmOnPath "foo" =
          (some "unknown tool: foo",
            [Event.stat "/home/u/.cceasy/node/bin/npm", Event.lookPath "npm",
             Event.mkdirAll "/home/u/.cceasy/node"])
      ∧ (InstallTool bareUnix "foo").1 =
          some "npm not found. Please ensure Node.js is installed."
      ∧ ¬ (∀ (w : World) (name : String), name ∉ ["claude", "gemini", "codex"] →
          (InstallTool w name).1 = some ("unknown tool: " ++ name) ∧
          ∀ e ∈ (InstallTool w name).2, e.isMkdir = false ∧ e.isRun = false) := by
  refine ⟨by decide, by decide, by decide, by decide, by decide, ?_⟩
  intro h
  exact absurd (h npmOnPath "foo" (by decide)).2 (by decide)

/-- C1 (amended): for a tool name outside {claude, gemini, codex} and any
platform state, `InstallTool` spawns no process and returns an error. The
package-manager lookup and the creation of the local root come first: without
a package manager the error is the npm-not-found one and no directory is
created; with one, the only directory creation is the single `MkdirAll` of
the local root, the last event of the trace, and the error is the
unknown-tool error when that creation succeeds, the directory-creation error
when it fails. -/
theorem InstallTool_unknown_tool (w : World) (name : String)
    (hname : name ∉ ["claude", "gemini", "codex"]) :
    (InstallTool w name).1 =
        (if (getNpmPath w).1 = "" then
          some "npm not found. Please ensure Node.js is installed."
        else
          match w.MkdirAll (w.filepathJoin [w.home, ".cceasy", "node"]) with
          | some err => some ("failed to create local node directory: " ++ err)
          | none => some ("unknown tool: " ++ name))
      ∧ (InstallTool w name).2 =
        (if (getNpmPath w).1 = "" then (getNpmPath w).2
        else (getNpmPath w).2 ++ [Event.mkdirAll (w.filepathJoin [w.home, ".cceasy", "node"])])
      ∧ (∀ e ∈ (InstallTool w name).2, e.isRun = false)
      ∧ (InstallTool w name).2.filter Event.isMkdir =
        (if (getNpmPath w).1 = "" then []
        else [Event.mkdirAll (w.filepathJoin [w.home, ".cceasy", "node"])]) := by
  have hp := packageName_eq_none name hname
  have hev := getNpmPath_events w
  have hres : (InstallTool w name).1 =
      (if (getNpmPath w).1 = "" then
        some "npm not found. Please ensure Node.js is installed."
      else
        match w.MkdirAll (w.filepathJoin [w.home, ".cceasy", "node"]) with
        | some err => some ("failed to create local node directory: " ++ err)
        | none => some ("unknown tool: " ++ name)) := by
    unfold InstallTool
    by_cases hn : (getNpmPath w).1 = ""
    · simp only [hn, if_true]
    · simp only [hn, if_false, hp]
      cases w.MkdirAll (w.filepathJoin [w.home, ".cceasy", "node"]) <;> rfl
  have htr : (InstallTool w name).2 =
      (if (getNpmPath w).1 = "" then (getNpmPath w).2
      else (getNpmPath w).2 ++ [Event.mkdirAll (w.filepathJoin [w.home, ".cceasy", "node"])]) := by
    unfold InstallTool
    by_cases hn : (getNpmPath w).1 = ""
    · simp only [hn, if_true]
    · simp only [hn, if_false, hp]
      cases w.MkdirAll (w.filepathJoin [w.home, ".cceasy", "node"]) <;> rfl
  refine ⟨hres, htr, ?_, ?_⟩
  · rw [htr]
    intro e he
    split_ifs at he
    · exact (hev e he).1
    · simp only [List.mem_append, List.mem_singleton] at he
      rcases he with he | he
      · exact (hev e he).1
      · subst he
        rfl
  · rw [htr]
    have hnil : (getNpmPath w).2.filter Event.isMkdir = [] :=
      filter_eq_nil_of_forall (fun e he => (hev e he).2)
    split_ifs
    · exact hnil
    · rw [List.filter_append, hnil]
      rfl

theorem InstallTool_unknown_tool_witness :
    (InstallTool npmOnPath "foo").1 =
        (if (getNpmPath npmOnPath).1 = "" then
          some "npm not found. Please ensure Node.js is installed."
        else
          match npmOnPath.MkdirAll (npmOnPath.filepathJoin [npmOnPath.home, ".cceasy", "node"]) with
          | some err => some ("failed to create local node directory: " ++ err)
          | none => some ("unknown tool: " ++ "foo"))
      ∧ (InstallTool npmOnPath "foo").2 =
        (if (getNpmPath npmOnPath).1 = "" then (getNpmPath npmOnPath).2
        else (getNpmPath npmOnPath).2 ++
          [Event.mkdirAll (npmOnPath.filepathJoin [npmOnPath.home, ".cceasy", "node"])])
      ∧ (∀ e ∈ (InstallTool npmOnPath "foo").2, e.isRun = false)
      ∧ (InstallTool npmOnPath "foo").2.filter Event.isMkdir =
        (if (getNpmPath npmOnPath).1 = "" then []
        else [Event.mkdirAll (npmOnPath.filepathJoin [npmOnPath.home, ".cceasy", "node"])]) :=
  InstallTool_unknown_tool npmOnPath "foo" (by decide)

/-- C2: for every tool name, when no package manager exists at the local
candidate path of the platform and the search-path lookup of `npm` fails,
`InstallTool` returns the package-manager-not-found error and its trace holds
neither a directory creation nor a process spawn. -/
theorem InstallTool_npm_not_found (w : World) (name : String)
    (hUnix : w.GOOS ≠ "windows" →
      w.Stat (w.filepathJoin [w.home, ".cceasy", "node", "bin", "npm"]) = false)
    (hWin : w.GOOS = "windows" →
      w.Stat (w.filepathJoin [w.home, ".cceasy", "node", "npm.cmd"]) = false)
    (hLook : w.LookPath "npm" = none) :
    (InstallTool w name).1 = some "npm not found. Please ensure Node.js is installed."
      ∧ ∀ e ∈ (InstallTool w name).2, e.isMkdir = false ∧ e.isRun = false := by
  have hn : (getNpmPath w).1 = "" := by
    unfold getNpmPath
    by_cases hw : w.GOOS = "windows"
    · simp [hw, hWin hw, hLook]
    · simp [hw, hUnix hw, hLook]
  have hev := getNpmPath_events w
  unfold InstallTool
  simp only [hn, if_true]
  exact ⟨trivial, fun e he => ⟨(hev e he).2, (hev e he).1⟩⟩

theorem InstallTool_npm_not_found_witness :
    (InstallTool bareUnix "claude").1 = some "npm not found. Please ensure Node.js is installed."
      ∧ ∀ e ∈ (InstallTool bareUnix "claude").2, e.isMkdir = false ∧ e.isRun = false :=
  InstallTool_npm_not_found bareUnix "claude" (fun _ => rfl) (fun h => absurd h (by decide)) rfl

/-- C8 (evaluation at the failing input): on Windows, with the package manager
resolved to `C:\tools.cmd\npm.bat`, a path that ends neither in `.cmd` nor in
`.exe`, the install command built by `InstallTool` is the direct invocation
of that path, not `cmd /c`. -/
theorem InstallTool_windows_extension_inside_path :
    winBat.GOOS = "windows"
      ∧ (getNpmPath winBat).1 = "C:\\tools.cmd\\npm.bat"
      ∧ HasSuffix (ToLower "C:\\tools.cmd\\npm.bat") ".cmd" = false
      ∧ HasSuffix (ToLower "C:\\tools.cmd\\npm.bat") ".exe" = false
      ∧ ((InstallTool winBat "claude").2.filter Event.isRun).map
          (fun e => match e with
            | Event.run c => c.Args
            | _ => []) =
          [["C:\\tools.cmd\\npm.bat", "install", "-g", "@anthropic-ai/claude-code",
            "--prefix", "C:\\Users\\u\\.cceasy\\node"]] := by
  decide

/-- C9: for each tool of the table, when a package manager is found and the
local root is created, exactly one process is spawned and the arguments it
passes to the package manager are `install -g <pkg> --prefix <home>/.cceasy/node`
(either directly, or behind `cmd /c <npmPath>`), with the package of the table. -/
theorem InstallTool_arguments (w : World) (name pkg : String)
    (hpkg : (name = "claude" ∧ pkg = "@anthropic-ai/claude-code") ∨
      (name = "gemini" ∧ pkg = "@google/gemini-cli") ∨
      (name = "codex" ∧ pkg = "@openai/codex"))
    (hnpm : (getNpmPath w).1 ≠ "")
    (hmk : w.MkdirAll (w.filepathJoin [w.home, ".cceasy", "node"]) = none) :
    ∃ cmd, (InstallTool w name).2.filter Event.isRun = [Event.run cmd] ∧
      (cmd.Args = (getNpmPath w).1 ::
          ["install", "-g", pkg, "--prefix", w.filepathJoin [w.home, ".cceasy", "node"]] ∨
       cmd.Args = "cmd" :: "/c" :: (getNpmPath w).1 ::
          ["install", "-g", pkg, "--prefix", w.filepathJoin [w.home, ".cceasy", "node"]]) := by
  have hp : packageName name = some pkg := by
    rcases hpkg with ⟨h1, h2⟩ | ⟨h1, h2⟩ | ⟨h1, h2⟩ <;> subst h1 <;> subst h2 <;> decide
  refine ⟨(installCmd w (getNpmPath w).1 pkg).1, ?_, ?_⟩
  · rw [InstallTool_of_pkg w name pkg hnpm hmk hp]
    simp only [List.filter_append]
    rw [filter_eq_nil_of_forall (fun e he => (getNpmPath_events w e he).1),
      filter_eq_nil_of_forall (l := (installCmd w (getNpmPath w).1 pkg).2)
        (fun e he => (installCommand_events w _ _ e he).1)]
    simp [List.filter, Event.isRun]
  · exact installCommand_args w _ _

theorem InstallTool_arguments_witness :
    ∃ cmd, (InstallTool npmOnPath "gemini").2.filter Event.isRun = [Event.run cmd] ∧
      (cmd.Args = (getNpmPath npmOnPath).1 ::
          ["install", "-g", "@google/gemini-cli", "--prefix",
            npmOnPath.filepathJoin [npmOnPath.home, ".cceasy", "node"]] ∨
       cmd.Args = "cmd" :: "/c" :: (getNpmPath npmOnPath).1 ::
          ["install", "-g", "@google/gemini-cli", "--prefix",
            npmOnPath.filepathJoin [npmOnPath.home, ".cceasy", "node"]]) :=
  InstallTool_arguments npmOnPath "gemini" "@google/gemini-cli"
    (Or.inr (Or.inl ⟨rfl, rfl⟩)) (by decide) (by decide)

/-- C10: for each tool of the table and every captured output `s`, when a
package manager is found, the local root is created and the install command
fails with error `err` having produced `s`, `InstallTool` returns an error
whose message contains `s`, the tool name and the text of `err`. -/
theorem InstallTool_failure_carries_output (w : World) (name s err : String)
    (hname : name ∈ ["claude", "gemini", "codex"])
    (hnpm : (getNpmPath w).1 ≠ "")
    (hmk : w.MkdirAll (w.filepathJoin [w.home, ".cceasy", "node"]) = none)
    (hfail : ∀ pkg, packageName name = some pkg →
      w.CombinedOutput (installCmd w (getNpmPath w).1 pkg).1 = (s, some err)) :
    ∃ msg, (InstallTool w name).1 = some msg ∧
      Contains msg s = true ∧ Contains msg name = true ∧ Contains msg err = true := by
  obtain ⟨pkg, hp⟩ : ∃ pkg, packageName name = some pkg := by
    simp only [List.mem_cons, List.mem_singleton, List.not_mem_nil, or_false] at hname
    rcases hname with h | h | h <;> subst h <;> exact ⟨_, rfl⟩
  refine ⟨"failed to install " ++ name ++ ": " ++ err ++ "\nOutput: " ++ s, ?_, ?_, ?_, ?_⟩
  · rw [InstallTool_of_pkg w name pkg hnpm hmk hp, hfail pkg hp]
  · simpa using Contains_append ("failed to install " ++ name ++ ": " ++ err ++ "\nOutput: ") s ""
  · simpa [String.append_assoc] using
      Contains_append "failed to install " name (": " ++ err ++ "\nOutput: " ++ s)
  · simpa [String.append_assoc] using
      Contains_append ("failed to install " ++ name ++ ": ") err ("\nOutput: " ++ s)

theorem InstallTool_failure_carries_output_witness :
    ∃ msg, (InstallTool npmOnPath "claude").1 = some msg ∧
      Contains msg "npm ERR! permission denied" = true ∧
      Contains msg "claude" = true ∧ Contains msg "exit status 1" = true :=
  InstallTool_failure_carries_output npmOnPath "claude" "npm ERR! permission denied"
    "exit status 1" (by decide) (by decide) (by decide) (fun _ _ => rfl)

/-! ## Version parsing -/

theorem pieces_eq_cons (c : Char) (s : List Char) : ∃ p ps, pieces c s = p :: ps := by
  cases s with
  | nil => exact ⟨[], [], rfl⟩
  | cons x xs =>
    unfold pieces
    split_ifs
    · exact ⟨_, _, rfl⟩
    · cases pieces c xs <;> exact ⟨_, _, rfl⟩

theorem splitGo_single (c : Char) (s cur : List Char) :
    ∃ p ps, pieces c s = p :: ps ∧ splitGo [c] s cur 0 = (cur.reverse ++ p) :: ps := by
  induction s generalizing cur with
  | nil => exact ⟨[], [], rfl, by simp [splitGo]⟩
  | cons x xs ih =>
    by_cases hx : x = c
    · subst hx
      obtain ⟨p, ps, hp, hs⟩ := ih []
      refine ⟨[], p :: ps, by simp [pieces, hp], ?_⟩
      simp only [splitGo, List.isPrefixOf, beq_self_eq_true, Bool.and_self, if_true,
        List.length_singleton, Nat.sub_self, List.append_nil]
      rw [hs]
      simp
    · obtain ⟨p, ps, hp, hs⟩ := ih (x :: cur)
      refine ⟨x :: p, ps, by simp [pieces, hx, hp, consHead], ?_⟩
      have hne : (c == x) = false := by
        rw [beq_eq_false_iff_ne]
        exact fun h => hx h.symm
      simp only [splitGo, List.isPrefixOf, hne, Bool.false_and, Bool.false_eq_true, if_false]
      rw [hs]
      simp

theorem head_pieces (c : Char) (s : List Char) :
    ∃ ps, pieces c s = s.takeWhile (fun x => x != c) :: ps := by
  induction s with
  | nil => exact ⟨[], rfl⟩
  | cons x xs ih =>
    by_cases hx : x = c
    · exact ⟨pieces c xs, by simp [pieces, hx]⟩
    · obtain ⟨ps, hp⟩ := ih
      exact ⟨ps, by simp [pieces, hx, hp, consHead]⟩

theorem Split_space (s : String) :
    ∃ ps, Split s " " = String.mk (s.data.takeWhile (fun x => x != ' ')) :: ps := by
  obtain ⟨p, ps, hp, hs⟩ := splitGo_single ' ' s.data []
  obtain ⟨qs, hq⟩ := head_pieces ' ' s.data
  rw [hq] at hp
  cases hp
  refine ⟨ps.map String.mk, ?_⟩
  have h1 : " ".data = [' '] := rfl
  simp [Split, h1, hs]

theorem Split_slash (s : String) :
    Split s "/" = (pieces '/' s.data).map String.mk := by
  obtain ⟨p, ps, hp, hs⟩ := splitGo_single '/' s.data []
  have h1 : "/".data = ['/'] := rfl
  simp [Split, h1, hs, hp]

/-- C3: the version extracted by the source is the one of the reference
`versionRef`, for every tool name and raw output (and `getToolVersion` returns
it whenever the probe succeeds); in particular the `claude` sample output
yields `0.2.29` and the `gemini` sample output yields `1.0.0`. -/
theorem parseVersion_eq_versionRef :
    (∀ name out : String, parseVersion name out = versionRef name out)
      ∧ (∀ (w : World) (name path : String),
          (getToolVersion w name path).1 =
            match (w.Output (Command w path ["--version"]).1).2 with
            | some err => Except.error err
            | none => Except.ok (versionRef name (w.Output (Command w path ["--version"]).1).1))
      ∧ parseVersion "claude" "claude-code/0.2.29 darwin-arm64 node-v22.12.0" = "0.2.29"
      ∧ parseVersion "gemini" "1.0.0" = "1.0.0" := by
  have key : ∀ name out : String, parseVersion name out = versionRef name out := by
    intro name out
    unfold parseVersion versionRef
    by_cases hc : Contains name "claude" = true
    · obtain ⟨ps, hps⟩ := Split_space (TrimSpace out)
      simp only [hc, if_true, hps, Split_slash]
      rcases pieces '/' (List.takeWhile (fun x => x != ' ') (TrimSpace out).data) with
        _ | ⟨a, _ | ⟨b, _ | ⟨c, r⟩⟩⟩ <;> simp
    · simp [hc]
  refine ⟨key, ?_, by decide, by decide⟩
  intro w name path
  unfold getToolVersion
  rcases h : w.Output (Command w path ["--version"]).1 with ⟨out, _ | err⟩ <;> simp [h, key]

/-! ## Child environment -/

theorem toUpper_eq_equals (c : Char) (h : c.toUpper = '=') : c = '=' := by
  unfold Char.toUpper at h
  dsimp only at h
  split_ifs at h with hr
  · exfalso
    obtain ⟨h1, h2⟩ := hr
    generalize c.toNat = n at h h1 h2
    interval_cases n <;> revert h <;> decide
  · exact h

theorem toUpper_ne_equals (c x : Char) (h : c.toUpper = x) (hx : x ≠ '=') : (c != '=') = true := by
  rw [bne_iff_ne]
  intro hc
  subst hc
  exact hx (h ▸ by decide)

theorem HasPrefix_PATH (e : String) (h : HasPrefix (ToUpper e) "PATH=" = true) :
    pathValue e = some (sliceFrom e 5) := by
  unfold HasPrefix ToUpper at h
  have hd : "PATH=".data = ['P', 'A', 'T', 'H', '='] := rfl
  rw [hd] at h
  rcases hdata : e.data with _ | ⟨c1, _ | ⟨c2, _ | ⟨c3, _ | ⟨c4, _ | ⟨c5, rest⟩⟩⟩⟩⟩ <;>
    rw [hdata] at h <;> simp [List.isPrefixOf] at h
  obtain ⟨h1, h2, h3, h4, h5⟩ := h
  have e5 := toUpper_eq_equals c5 h5.symm
  have n1 := toUpper_ne_equals c1 _ h1.symm (by decide)
  have n2 := toUpper_ne_equals c2 _ h2.symm (by decide)
  have n3 := toUpper_ne_equals c3 _ h3.symm (by decide)
  have n4 := toUpper_ne_equals c4 _ h4.symm (by decide)
  subst e5
  have hk : ToUpper (String.mk [c1, c2, c3, c4]) = "PATH" := by
    apply String.ext
    simp [ToUpper, ← h1, ← h2, ← h3, ← h4]
  simp [pathValue, envSplit, hdata, List.dropWhile, List.takeWhile, n1, n2, n3, n4, hk, sliceFrom]

theorem pathValue_HasPrefix (e v : String) (h : pathValue e = some v) :
    HasPrefix (ToUpper e) "PATH=" = true := by
  unfold pathValue envSplit at h
  have happ := List.takeWhile_append_dropWhile (fun c => c != '=') e.data
  rcases hd : e.data.dropWhile (fun c => c != '=') with _ | ⟨x, r⟩
  · simp [hd] at h
  · have hx : x = '=' := by
      have := List.head_dropWhile_not (fun c => c != '=') e.data (by simp [hd])
      simpa [hd] using this
    subst hx
    simp only [hd] at h happ
    split_ifs at h with hk
    have hk2 : (e.data.takeWhile (fun c => c != '=')).map Char.toUpper = ['P', 'A', 'T', 'H'] :=
      congrArg String.data hk
    unfold HasPrefix ToUpper
    rw [← happ]
    simp only [List.map_append, hk2]
    have hq : Char.toUpper '=' = '=' := by decide
    simp [List.isPrefixOf, hq]

theorem setPath_of_split (b : String) (sep : Char) (pre post : List String) (e v : String)
    (he : pathValue e = some v) (hpre : ∀ x ∈ pre, pathValue x = none) :
    setPath b sep (pre ++ e :: post) =
      (pre ++ ("PATH=" ++ b ++ String.singleton sep ++ v) :: post, true) := by
  induction pre with
  | nil =>
    have hp := pathValue_HasPrefix e v he
    have hv := HasPrefix_PATH e hp
    rw [he, Option.some.injEq] at hv
    simp [setPath, hp, hv]
  | cons x xs ih =>
    have hx : HasPrefix (ToUpper x) "PATH=" = false := by
      cases hh : HasPrefix (ToUpper x) "PATH="
      · rfl
      · have := HasPrefix_PATH x hh
        rw [hpre x (List.mem_cons_self _ _)] at this
        cases this
    have := ih (fun y hy => hpre y (List.mem_cons_of_mem _ hy))
    simp [setPath, hx, this]

theorem pathValue_new (b v : String) (sep : Char) :
    pathValue ("PATH=" ++ b ++ String.singleton sep ++ v) = some (b ++ String.singleton sep ++ v) := by
  have hp : HasPrefix (ToUpper ("PATH=" ++ b ++ String.singleton sep ++ v)) "PATH=" = true := by
    have hd : "PATH=".data = ['P', 'A', 'T', 'H', '='] := rfl
    simp [HasPrefix, ToUpper, String.data_append, hd, List.isPrefixOf]
  rw [HasPrefix_PATH _ hp]
  rfl

/-- C4: for an environment with exactly one entry `e` whose variable name is
`PATH` (case-insensitively), of value `v`, and any local bin directory `b`,
the child environment is the input with `e` replaced by
`PATH=` ++ b ++ separator ++ v and every other entry unchanged, in the same
order; it holds exactly one `PATH` entry, the new one. In particular the
input `PATH=/usr/bin` with `b = /x/bin` gives the single entry
`PATH=/x/bin<separator>/usr/bin`. -/
theorem childEnv_single_PATH (pre post : List String) (e v b : String) (sep : Char)
    (he : pathValue e = some v)
    (hpre : ∀ x ∈ pre, pathValue x = none)
    (hpost : ∀ x ∈ post, pathValue x = none) :
    childEnv (pre ++ e :: post) b sep =
        pre ++ ("PATH=" ++ b ++ String.singleton sep ++ v) :: post
      ∧ (childEnv (pre ++ e :: post) b sep).filter (fun x => (pathValue x).isSome) =
        ["PATH=" ++ b ++ String.singleton sep ++ v] := by
  have h : childEnv (pre ++ e :: post) b sep =
      pre ++ ("PATH=" ++ b ++ String.singleton sep ++ v) :: post := by
    simp [childEnv, setPath_of_split b sep pre post e v he hpre]
  refine ⟨h, ?_⟩
  rw [h, List.filter_append, List.filter_cons]
  have h1 : pre.filter (fun x => (pathValue x).isSome) = [] := by
    rw [List.filter_eq_nil_iff]
    intro x hx
    simp [hpre x hx]
  have h2 : post.filter (fun x => (pathValue x).isSome) = [] := by
    rw [List.filter_eq_nil_iff]
    intro x hx
    simp [hpost x hx]
  simp [h1, h2, pathValue_new]

theorem childEnv_single_PATH_witness :
    childEnv ([] ++ "PATH=/usr/bin" :: []) "/x/bin" ':' =
        [] ++ ("PATH=" ++ "/x/bin" ++ String.singleton ':' ++ "/usr/bin") :: []
      ∧ (childEnv ([] ++ "PATH=/usr/bin" :: []) "/x/bin" ':').filter
          (fun x => (pathValue x).isSome) =
        ["PATH=" ++ "/x/bin" ++ String.singleton ':' ++ "/usr/bin"] :=
  childEnv_single_PATH [] [] "PATH=/usr/bin" "/usr/bin" "/x/bin" ':' (by decide)
    (fun _ h => absurd h (List.not_mem_nil _)) (fun _ h => absurd h (List.not_mem_nil _))

/-- Without any `PATH` entry the local bin directory is appended as a new one. -/
theorem childEnv_appends_when_absent :
    childEnv ["HOME=/h", "X=1"] "/x/bin" ':' = ["HOME=/h", "X=1", "PATH=/x/bin"] := by
  decide

end ToolManager
